import Mathlib

/-!
Shallow embedding of the `file_splitter` repository.

Files are modelled as byte sequences (`List Nat`); a directory's contents
as a lookup function `String → Option (List Nat)`.  The MD5 digest function
is an explicit parameter `md5h : List Nat → String` of every operation:
`hashlib` is an external collaborator, and incremental `md5.update` calls
over consecutive buffers are modelled as applying `md5h` to the
concatenation of those buffers (= the bytes written to the part file).
Wall-clock time enters only through the explicit `ts` parameter, which the
splitters record in the manifest's `timestamp` field.
-/

/-- `os.path.join(d, n)` for a relative name `n`. -/
def pathJoin (d n : String) : String := if d = "" then n else d ++ "/" ++ n

/-- The character for a decimal digit `d`, i.e. `'0'` through `'9'`. -/
def digitChar (d : Nat) : Char := Char.ofNat (48 + d)

/-- Decimal rendering of a natural number (Python `str(n)`):
most-significant digit first, `"0"` for zero. -/
def decString (n : Nat) : String :=
  if n = 0 then "0" else String.mk ((Nat.digits 10 n).reverse.map digitChar)

/-- Python's `f"{idx:03d}"`: decimal, left-padded with zeros to width 3. -/
def pad3 (n : Nat) : String :=
  if n < 10 then "00" ++ decString n
  else if n < 100 then "0" ++ decString n
  else decString n

/-- `f"{base_name}.part{idx:03d}"`, the part-file naming scheme shared by
both splitter variants. -/
def partName (base : String) (idx : Nat) : String := base ++ ".part" ++ pad3 idx

/-- One record of the manifest's `parts` list. -/
structure PartRecord where
  filename : String
  size : Nat
  md5 : String
  deriving DecidableEq, Repr

/-- The manifest written by `split_file` (both variants write the same
fields).  `chunk_size_bytes` is a Python `int`, hence `Int` here. -/
structure Manifest where
  original_filename : String
  total_parts : Nat
  chunk_size_bytes : Int
  timestamp : String
  parts : List PartRecord
  deriving DecidableEq, Repr

/-- `WRITE_BLOCK = 8 * 1024 * 1024` from `splitter_utility.py`. -/
def WRITE_BLOCK : Nat := 8 * 1024 * 1024

/-- The inner block loop of `splitter_utility.split_file`:
`while written < to_write: block = min(WRITE_BLOCK, to_write - written);
buf = infile.read(block); if not buf: break; ...`.
`toWrite` is `to_write - written`; the returned list is the concatenation
of the buffers written (and hashed) for one part. -/
def readBlocks (W : Nat) (toWrite : Nat) (stream : List Nat) : List Nat :=
  if _h : toWrite = 0 ∨ W = 0 ∨ stream = [] then []
  else
    let block := min W toWrite
    let buf := stream.take block
    buf ++ readBlocks W (toWrite - buf.length) (stream.drop block)
termination_by toWrite
decreasing_by
  push_neg at _h
  obtain ⟨h1, h2, h3⟩ := _h
  have hb : 0 < (stream.take (min W toWrite)).length := by
    rw [List.length_take]
    have : 0 < stream.length := List.length_pos.mpr h3
    omega
  omega

/-- A block-by-block bounded read of the next `toWrite` bytes returns
exactly the next `toWrite` bytes of the stream. -/
theorem readBlocks_eq_take (W : Nat) (hW : 0 < W) :
    ∀ (toWrite : Nat) (stream : List Nat), toWrite ≤ stream.length →
      readBlocks W toWrite stream = stream.take toWrite := by
  intro t
  induction t using Nat.strong_induction_on with
  | _ t ih =>
    intro stream hts
    rw [readBlocks]
    by_cases h0 : t = 0
    · subst h0; simp
    · have hs : stream ≠ [] := by
        intro he; subst he; simp at hts; omega
      rw [dif_neg (by push_neg; exact ⟨h0, by omega, hs⟩)]
      have hmin : min W t ≤ stream.length := le_trans (min_le_right _ _) hts
      have hlen : (stream.take (min W t)).length = min W t := by
        rw [List.length_take]; omega
      show stream.take (min W t) ++
        readBlocks W (t - (stream.take (min W t)).length) (stream.drop (min W t)) =
        stream.take t
      rw [hlen]
      have hlt : t - min W t < t := by
        have : 0 < min W t := by
          have : 0 < t := Nat.pos_of_ne_zero h0
          omega
        omega
      rw [ih (t - min W t) hlt (stream.drop (min W t))
        (by rw [List.length_drop]; omega)]
      rw [← List.take_add]
      congr 1
      omega

/-- The outer `while bytes_left > 0` loop of `splitter_utility.split_file`.
Given the remaining stream (whose length is `bytes_left`) and the current
1-based part index, it returns the part files written (name, bytes) and the
part records appended to the in-memory `parts` list.  Each iteration sets
`to_write = min(chunk_size, bytes_left)`, writes that part through the
inner 8 MiB block loop while updating the running MD5 digest, appends
`{"filename": part_name, "size": written, "md5": md5.hexdigest()}`, and
advances by `written` bytes.  The `c = 0` / `W = 0` guards are unreachable
from `split_file` (chunk size is validated positive) and only discharge
termination. -/
def splitUtilLoop (md5h : List Nat → String) (base : String) (W c : Nat)
    (stream : List Nat) (idx : Nat) :
    List (String × List Nat) × List PartRecord :=
  if _h : stream = [] ∨ c = 0 ∨ W = 0 then ([], [])
  else
    let toWrite := min c stream.length
    let content := readBlocks W toWrite stream
    let name := partName base idx
    let rest := splitUtilLoop md5h base W c (stream.drop content.length) (idx + 1)
    ((name, content) :: rest.1,
     { filename := name, size := content.length, md5 := md5h content } :: rest.2)
termination_by stream.length
decreasing_by
  push_neg at _h
  obtain ⟨h1, h2, h3⟩ := _h
  rw [readBlocks_eq_take W (Nat.pos_of_ne_zero h3) _ _ (min_le_right _ _)]
  rw [List.length_drop, List.length_take]
  have hs : 0 < stream.length := List.length_pos.mpr h1
  have hc : 0 < c := Nat.pos_of_ne_zero h2
  omega

/-- `infile.read(chunk_size)` for a Python `int` size argument: a negative
size reads the whole stream, otherwise up to `chunk_size` bytes. -/
def readChunk (c : Int) (stream : List Nat) : List Nat :=
  if c < 0 then stream else stream.take c.toNat

/-- The stream remaining after `infile.read(chunk_size)`. -/
def streamAfterRead (c : Int) (stream : List Nat) : List Nat :=
  if c < 0 then [] else stream.drop c.toNat

/-- The `while True` loop of `splitter.split_file`: read one whole chunk,
break when the read is empty, otherwise write the chunk to the part file,
recompute its MD5 by rereading the written file (`md5sum(part_path)`,
which digests exactly the chunk's bytes), and record
`{"filename": part_name, "size": len(chunk), "md5": md5}`. -/
def splitPlainLoop (md5h : List Nat → String) (base : String) (c : Int)
    (stream : List Nat) (idx : Nat) :
    List (String × List Nat) × List PartRecord :=
  if h : readChunk c stream = [] then ([], [])
  else
    let chunk := readChunk c stream
    let name := partName base idx
    let rest := splitPlainLoop md5h base c (streamAfterRead c stream) (idx + 1)
    ((name, chunk) :: rest.1,
     { filename := name, size := chunk.length, md5 := md5h chunk } :: rest.2)
termination_by stream.length
decreasing_by
  simp only [readChunk] at h
  simp only [streamAfterRead]
  by_cases hc : c < 0
  · rw [if_pos hc] at h
    rw [if_pos hc]
    simpa using List.length_pos.mpr h
  · rw [if_neg hc] at h
    rw [if_neg hc]
    rw [List.length_drop]
    have h1 : c.toNat ≠ 0 := by
      intro he; rw [he] at h; simp at h
    have h2 : stream ≠ [] := by
      intro he; rw [he] at h; simp at h
    have := List.length_pos.mpr h2
    omega

/-- `safe_folder_name` from `splitter.py`: keep alphanumerics and `._-`,
replace every other character by `_`. -/
def safe_folder_name (s : String) : String :=
  String.mk (s.data.map (fun c => if c.isAlphanum ∨ c = '.' ∨ c = '_' ∨ c = '-' then c else '_'))

/-- Errors raised by the splitters before any output is produced. -/
inductive SplitError where
  | fileNotFound
  | invalidArgument
  deriving DecidableEq, Repr

/-- Everything `split_file` leaves on disk on success: the resolved output
directory, the part files written into it, and the manifest file name and
value. -/
structure SplitOutput where
  outputDir : String
  partFiles : List (String × List Nat)
  manifestName : String
  manifest : Manifest
  deriving DecidableEq, Repr

/-- `splitter_utility.split_file(file_path, output_dir, chunk_size)`.
`base` is `os.path.basename(file_path)`, `parentDir` the absolute parent
directory of the source, `source` the source file's bytes (`none` when the
file does not exist), `ts` the `time.strftime` result recorded in the
manifest.  The existence check and the `chunk_size <= 0` check precede
`os.makedirs` and every write, so an error result carries no output. -/
def split_file_utility (md5h : List Nat → String) (ts base parentDir : String)
    (source : Option (List Nat)) (output_dir : Option String)
    (chunk_size : Int) : Except SplitError SplitOutput :=
  match source with
  | none => .error .fileNotFound
  | some data =>
    if chunk_size ≤ 0 then .error .invalidArgument
    else
      let out_dir :=
        match output_dir with
        | none => pathJoin parentDir (base ++ "_split")
        | some d => if d.trim = "" then pathJoin parentDir (base ++ "_split") else d
      let r := splitUtilLoop md5h base WRITE_BLOCK chunk_size.toNat data 1
      .ok { outputDir := out_dir,
            partFiles := r.1,
            manifestName := base ++ ".manifest.json",
            manifest := { original_filename := base,
                          total_parts := r.2.length,
                          chunk_size_bytes := chunk_size,
                          timestamp := ts,
                          parts := r.2 } }

/-- `splitter.split_file(file_path, chunk_size)`: no chunk-size
validation; output directory is the sanitized `<basename>_split` next to
the source file; parts are read whole-chunk at a time. -/
def split_file_plain (md5h : List Nat → String) (ts base fileDir : String)
    (data : List Nat) (chunk_size : Int) : SplitOutput :=
  let folder_name := safe_folder_name (base ++ "_split")
  let output_dir := pathJoin fileDir folder_name
  let r := splitPlainLoop md5h base chunk_size data 1
  { outputDir := output_dir,
    partFiles := r.1,
    manifestName := base ++ ".manifest.json",
    manifest := { original_filename := base,
                  total_parts := r.2.length,
                  chunk_size_bytes := chunk_size,
                  timestamp := ts,
                  parts := r.2 } }

/-- The exception raised by `joiner_utility.join_from_manifest`:
`FileNotFoundError(f"Missing part: {filename}")` or
`ValueError(f"Checksum mismatch in {filename} (expected {md5}, got {actual})")`. -/
inductive JoinErrorU where
  | missingPart (filename : String)
  | checksumMismatch (filename expected actual : String)
  deriving DecidableEq, Repr

/-- The exception raised by `joiner.join_from_manifest`:
`FileNotFoundError(f"Missing part: {filename}")` or
`ValueError(f"Checksum mismatch in {filename}")`. -/
inductive JoinErrorP where
  | missingPart (filename : String)
  | checksumMismatch (filename : String)
  deriving DecidableEq, Repr

/-- The message string carried by a `joiner_utility.py` exception,
following its f-strings verbatim. -/
def joinErrorUMessage : JoinErrorU → String
  | .missingPart f => "Missing part: " ++ f
  | .checksumMismatch f e a => "Checksum mismatch in " ++ f ++ " (expected " ++ e ++ ", got " ++ a ++ ")"

/-- The message string carried by a `joiner.py` exception, following its
f-strings verbatim. -/
def joinErrorPMessage : JoinErrorP → String
  | .missingPart f => "Missing part: " ++ f
  | .checksumMismatch f => "Checksum mismatch in " ++ f

/-- The `for part in manifest["parts"]` loop of
`joiner_utility.join_from_manifest`.  `fs` maps a full path to the bytes
of the file stored there (`none` when no such file exists); `baseDir` is
`os.path.dirname(manifest_path)`; `acc` is what has been written to the
output file so far.  Each part is resolved at
`os.path.join(base_dir, part["filename"])`, its checksum recomputed from
its current on-disk bytes, and on success its bytes are appended; the
first missing part or checksum mismatch aborts the loop, leaving the
output at `acc`. -/
def joinLoopU (md5h : List Nat → String) (fs : String → Option (List Nat))
    (baseDir : String) : List PartRecord → List Nat → List Nat × Option JoinErrorU
  | [], acc => (acc, none)
  | part :: rest, acc =>
    match fs (pathJoin baseDir part.filename) with
    | none => (acc, some (.missingPart part.filename))
    | some content =>
      let md5_actual := md5h content
      if md5_actual ≠ part.md5 then
        (acc, some (.checksumMismatch part.filename part.md5 md5_actual))
      else
        joinLoopU md5h fs baseDir rest (acc ++ content)

/-- The part loop of `joiner.join_from_manifest`; identical to
`joinLoopU` except that the mismatch exception carries only the part's
filename. -/
def joinLoopP (md5h : List Nat → String) (fs : String → Option (List Nat))
    (baseDir : String) : List PartRecord → List Nat → List Nat × Option JoinErrorP
  | [], acc => (acc, none)
  | part :: rest, acc =>
    match fs (pathJoin baseDir part.filename) with
    | none => (acc, some (.missingPart part.filename))
    | some content =>
      let md5_actual := md5h content
      if md5_actual ≠ part.md5 then
        (acc, some (.checksumMismatch part.filename))
      else
        joinLoopP md5h fs baseDir rest (acc ++ content)

/-- What a join run leaves behind: the output file's path, the bytes
written to it (partial when `error` is set), and the exception if one was
raised. -/
structure JoinOutcomeU where
  outPath : String
  content : List Nat
  error : Option JoinErrorU
  deriving DecidableEq, Repr

/-- `JoinOutcomeU` for the `joiner.py` variant. -/
structure JoinOutcomeP where
  outPath : String
  content : List Nat
  error : Option JoinErrorP
  deriving DecidableEq, Repr

/-- `joiner_utility.join_from_manifest(manifest_path, output_dir)`.
`manifestDir` is `os.path.dirname(manifest_path)`; when `output_dir` is
`None` it defaults to the manifest's directory.  The output file is
`os.path.join(output_dir, manifest["original_filename"])`, opened with
`"wb"` (truncated) before the part loop runs. -/
def join_from_manifest_utility (md5h : List Nat → String)
    (fs : String → Option (List Nat)) (manifestDir : String)
    (output_dir : Option String) (m : Manifest) : JoinOutcomeU :=
  let base_dir := manifestDir
  let out_dir := output_dir.getD base_dir
  let out_path := pathJoin out_dir m.original_filename
  let r := joinLoopU md5h fs base_dir m.parts []
  { outPath := out_path, content := r.1, error := r.2 }

/-- `joiner.join_from_manifest(manifest_path)`: output always lands next
to the manifest. -/
def join_from_manifest_plain (md5h : List Nat → String)
    (fs : String → Option (List Nat)) (manifestDir : String)
    (m : Manifest) : JoinOutcomeP :=
  let base_dir := manifestDir
  let out_path := pathJoin base_dir m.original_filename
  let r := joinLoopP md5h fs base_dir m.parts []
  { outPath := out_path, content := r.1, error := r.2 }

/-- The on-disk state of the split output directory, as a path-keyed
lookup over the part files the splitter wrote (first match wins, matching
a directory in which each name occurs once). -/
def lookupFile (files : List (String × List Nat)) (path : String) :
    Option (List Nat) :=
  match files with
  | [] => none
  | (n, ct) :: rest => if path = n then some ct else lookupFile rest path

/-- The directory `dir` populated with `files`, viewed as a full-path
lookup function. -/
def fsOf (dir : String) (files : List (String × List Nat)) :
    String → Option (List Nat) :=
  fun path => lookupFile (files.map (fun f => (pathJoin dir f.1, f.2))) path

/-- Left inverse of decimal rendering: read the digit characters back,
least-significant last. -/
def unpad (s : String) : Nat :=
  Nat.ofDigits 10 ((s.data.map (fun ch => ch.toNat - 48)).reverse)

theorem digitChar_toNat {d : Nat} (hd : d < 10) : (digitChar d).toNat - 48 = d := by
  interval_cases d <;> decide

theorem unpad_decString (n : Nat) :
    Nat.ofDigits 10 (((decString n).data.map (fun ch => ch.toNat - 48)).reverse) = n := by
  by_cases h0 : n = 0
  · subst h0; decide
  · rw [decString, if_neg h0]
    have hmap : ((Nat.digits 10 n).reverse.map digitChar).map (fun ch => ch.toNat - 48)
        = (Nat.digits 10 n).reverse := by
      rw [List.map_map]
      apply List.map_congr_left ?_ |>.trans (List.map_id _)
      intro d hd
      exact digitChar_toNat (Nat.digits_lt_base (by norm_num) (List.mem_reverse.mp hd))
    show Nat.ofDigits 10 ((((Nat.digits 10 n).reverse.map digitChar)).map
      (fun ch => ch.toNat - 48)).reverse = n
    rw [hmap, List.reverse_reverse, Nat.ofDigits_digits]

theorem ofDigits_all_zero : ∀ l : List Nat, (∀ x ∈ l, x = 0) →
    Nat.ofDigits 10 l = 0 := by
  intro l
  induction l with
  | nil => intro _; rfl
  | cons x xs ih =>
    intro h
    rw [Nat.ofDigits_cons, h x (by simp), ih (fun y hy => h y (by simp [hy]))]

theorem unpad_pad3 (n : Nat) : unpad (pad3 n) = n := by
  have key : ∀ z : String, (∀ ch ∈ z.data, ch = '0') →
      unpad (z ++ decString n) = n := by
    intro z hz
    rw [unpad, String.data_append, List.map_append, List.reverse_append,
      Nat.ofDigits_append, unpad_decString]
    have : Nat.ofDigits 10 (z.data.map (fun ch => ch.toNat - 48)).reverse = 0 := by
      apply ofDigits_all_zero
      intro x hx
      rw [List.mem_reverse, List.mem_map] at hx
      obtain ⟨ch, hch, he⟩ := hx
      rw [hz ch hch] at he
      simpa using he.symm
    rw [this]
    ring
  rw [pad3]
  by_cases h1 : n < 10
  · rw [if_pos h1]; exact key "00" (by decide)
  · rw [if_neg h1]
    by_cases h2 : n < 100
    · rw [if_pos h2]; exact key "0" (by decide)
    · rw [if_neg h2]
      have := key "" (by intro ch h; simp [String.data] at h)
      simpa using this

theorem pad3_injective {a b : Nat} (h : pad3 a = pad3 b) : a = b := by
  have := congrArg unpad h
  rwa [unpad_pad3, unpad_pad3] at this

theorem string_append_left_cancel {s t u : String} (h : s ++ t = s ++ u) : t = u := by
  apply String.ext
  have := congrArg String.data h
  rw [String.data_append, String.data_append] at this
  exact List.append_cancel_left this

theorem partName_injective {base : String} {i j : Nat}
    (h : partName base i = partName base j) : i = j := by
  rw [partName, partName, String.append_assoc, String.append_assoc] at h
  exact pad3_injective (string_append_left_cancel (string_append_left_cancel h))

theorem pathJoin_injective {d : String} {a b : String}
    (h : pathJoin d a = pathJoin d b) : a = b := by
  rw [pathJoin, pathJoin] at h
  by_cases hd : d = ""
  · rwa [if_pos hd, if_pos hd] at h
  · rw [if_neg hd, if_neg hd, String.append_assoc, String.append_assoc] at h
    exact string_append_left_cancel (string_append_left_cancel h)

theorem take_min_length (c : Nat) (s : List Nat) :
    s.take (min c s.length) = s.take c := by
  rcases le_total c s.length with h | h
  · rw [min_eq_left h]
  · rw [min_eq_right h, List.take_length, List.take_of_length_le h]

theorem drop_min_length (c : Nat) (s : List Nat) :
    s.drop (min c s.length) = s.drop c := by
  rcases le_total c s.length with h | h
  · rw [min_eq_left h]
  · rw [min_eq_right h, List.drop_length, List.drop_eq_nil_of_le h]

theorem splitPlainLoop_nil (md5h : List Nat → String) (base : String)
    (c : Nat) (idx : Nat) :
    splitPlainLoop md5h base (c : Int) [] idx = ([], []) := by
  rw [splitPlainLoop]
  rw [dif_pos (by simp [readChunk])]

theorem splitPlainLoop_cons (md5h : List Nat → String) (base : String)
    {c : Nat} (hc : 0 < c) {s : List Nat} (hs : s ≠ []) (idx : Nat) :
    splitPlainLoop md5h base (c : Int) s idx =
      ((partName base idx, s.take c) ::
        (splitPlainLoop md5h base (c : Int) (s.drop c) (idx + 1)).1,
       { filename := partName base idx, size := (s.take c).length,
         md5 := md5h (s.take c) } ::
        (splitPlainLoop md5h base (c : Int) (s.drop c) (idx + 1)).2) := by
  have hrc : readChunk (c : Int) s = s.take c := by
    rw [readChunk, if_neg (by simp)]
    congr 1
  have hne : readChunk (c : Int) s ≠ [] := by
    rw [hrc]
    rw [Ne, List.take_eq_nil_iff]
    push_neg
    exact ⟨by omega, hs⟩
  have hsar : streamAfterRead (c : Int) s = s.drop c := by
    rw [streamAfterRead, if_neg (by simp)]
    congr 1
  rw [splitPlainLoop]
  rw [dif_neg hne]
  rw [hsar]
  show ((partName base idx, readChunk (c : Int) s) :: _, _) = _
  rw [hrc]

theorem splitUtilLoop_eq_plainLoop (md5h : List Nat → String) (base : String)
    {W c : Nat} (hW : 0 < W) (hc : 0 < c) :
    ∀ (s : List Nat) (idx : Nat),
      splitUtilLoop md5h base W c s idx = splitPlainLoop md5h base (c : Int) s idx := by
  suffices H : ∀ (n : Nat) (s : List Nat), s.length ≤ n → ∀ (idx : Nat),
      splitUtilLoop md5h base W c s idx = splitPlainLoop md5h base (c : Int) s idx by
    intro s idx
    exact H s.length s le_rfl idx
  intro n
  induction n with
  | zero =>
    intro s hs idx
    have hnil : s = [] := List.length_eq_zero.mp (by omega)
    subst hnil
    rw [splitUtilLoop, dif_pos (Or.inl rfl), splitPlainLoop_nil]
  | succ n ih =>
    intro s hs idx
    by_cases hnil : s = []
    · subst hnil
      rw [splitUtilLoop, dif_pos (Or.inl rfl), splitPlainLoop_nil]
    · have hcontent : readBlocks W (min c s.length) s = s.take c := by
        rw [readBlocks_eq_take W hW _ _ (min_le_right _ _), take_min_length]
      have hlen : (s.take c).length = min c s.length := by
        rw [List.length_take]
      rw [splitUtilLoop]
      rw [dif_neg (by push_neg; exact ⟨hnil, by omega, by omega⟩)]
      show ((partName base idx, readBlocks W (min c s.length) s) ::
          (splitUtilLoop md5h base W c
            (s.drop (readBlocks W (min c s.length) s).length) (idx + 1)).1,
        { filename := partName base idx,
          size := (readBlocks W (min c s.length) s).length,
          md5 := md5h (readBlocks W (min c s.length) s) } ::
          (splitUtilLoop md5h base W c
            (s.drop (readBlocks W (min c s.length) s).length) (idx + 1)).2) = _
      rw [hcontent, hlen, drop_min_length]
      have hdrop : (s.drop c).length ≤ n := by
        rw [List.length_drop]
        have : 0 < s.length := List.length_pos.mpr hnil
        omega
      rw [ih (s.drop c) hdrop (idx + 1)]
      rw [splitPlainLoop_cons md5h base hc hnil idx]
      rw [hlen]

theorem splitPlainLoop_names (md5h : List Nat → String) (base : String)
    {c : Nat} (hc : 0 < c) :
    ∀ (n : Nat) (s : List Nat), s.length ≤ n → ∀ (idx : Nat) (pr : String × List Nat),
      pr ∈ (splitPlainLoop md5h base (c : Int) s idx).1 →
      ∃ j, idx ≤ j ∧ pr.1 = partName base j := by
  intro n
  induction n with
  | zero =>
    intro s hs idx pr hpr
    have hnil : s = [] := List.length_eq_zero.mp (by omega)
    subst hnil
    rw [splitPlainLoop_nil] at hpr
    simp at hpr
  | succ n ih =>
    intro s hs idx pr hpr
    by_cases hnil : s = []
    · subst hnil
      rw [splitPlainLoop_nil] at hpr
      simp at hpr
    · rw [splitPlainLoop_cons md5h base hc hnil idx] at hpr
      rcases List.mem_cons.mp hpr with h | h
      · exact ⟨idx, le_rfl, by rw [h]⟩
      · have hdrop : (s.drop c).length ≤ n := by
          rw [List.length_drop]
          have : 0 < s.length := List.length_pos.mpr hnil
          omega
        obtain ⟨j, hj, he⟩ := ih (s.drop c) hdrop (idx + 1) pr h
        exact ⟨j, by omega, he⟩

theorem lookupFile_split (md5h : List Nat → String) (base : String)
    {c : Nat} (hc : 0 < c) :
    ∀ (n : Nat) (s : List Nat), s.length ≤ n →
      ∀ (idx : Nat) (nm : String) (ct : List Nat),
      (nm, ct) ∈ (splitPlainLoop md5h base (c : Int) s idx).1 →
      lookupFile (splitPlainLoop md5h base (c : Int) s idx).1 nm = some ct := by
  intro n
  induction n with
  | zero =>
    intro s hs idx nm ct hmem
    have hnil : s = [] := List.length_eq_zero.mp (by omega)
    subst hnil
    rw [splitPlainLoop_nil] at hmem
    simp at hmem
  | succ n ih =>
    intro s hs idx nm ct hmem
    by_cases hnil : s = []
    · subst hnil
      rw [splitPlainLoop_nil] at hmem
      simp at hmem
    · have hdrop : (s.drop c).length ≤ n := by
        rw [List.length_drop]
        have : 0 < s.length := List.length_pos.mpr hnil
        omega
      rw [splitPlainLoop_cons md5h base hc hnil idx] at hmem ⊢
      rcases List.mem_cons.mp hmem with h | h
      · have h1 : nm = partName base idx := congrArg Prod.fst h
        have h2 : ct = s.take c := congrArg Prod.snd h
        rw [lookupFile, if_pos h1, h2]
      · have hne : nm ≠ partName base idx := by
          obtain ⟨j, hj, he⟩ :=
            splitPlainLoop_names md5h base hc n (s.drop c) hdrop (idx + 1) (nm, ct) h
          have he' : nm = partName base j := he
          rw [he']
          intro heq
          have := partName_injective heq
          omega
        rw [lookupFile, if_neg hne]
        exact ih (s.drop c) hdrop (idx + 1) nm ct h

theorem lookupFile_map_pathJoin (dir : String)
    (files : List (String × List Nat)) (nm : String) :
    lookupFile (files.map (fun f => (pathJoin dir f.1, f.2))) (pathJoin dir nm) =
      lookupFile files nm := by
  induction files with
  | nil => rfl
  | cons f rest ih =>
    rw [List.map_cons, lookupFile, lookupFile]
    by_cases h : nm = f.1
    · rw [if_pos (by rw [h]), if_pos h]
    · rw [if_neg (fun he => h (pathJoin_injective he)), if_neg h]
      exact ih

theorem fsOf_split_correct (md5h : List Nat → String) (base dir : String)
    {c : Nat} (hc : 0 < c) (s : List Nat) (idx : Nat)
    (nm : String) (ct : List Nat)
    (hmem : (nm, ct) ∈ (splitPlainLoop md5h base (c : Int) s idx).1) :
    fsOf dir (splitPlainLoop md5h base (c : Int) s idx).1 (pathJoin dir nm) =
      some ct := by
  rw [fsOf]
  rw [lookupFile_map_pathJoin]
  exact lookupFile_split md5h base hc s.length s le_rfl idx nm ct hmem

theorem join_split_loop (md5h : List Nat → String) (base dir : String)
    {c : Nat} (hc : 0 < c) :
    ∀ (n : Nat) (s : List Nat), s.length ≤ n →
      ∀ (idx : Nat) (acc : List Nat) (fs : String → Option (List Nat)),
      (∀ nm ct, (nm, ct) ∈ (splitPlainLoop md5h base (c : Int) s idx).1 →
        fs (pathJoin dir nm) = some ct) →
      joinLoopU md5h fs dir (splitPlainLoop md5h base (c : Int) s idx).2 acc =
        (acc ++ s, none) := by
  intro n
  induction n with
  | zero =>
    intro s hs idx acc fs _
    have hnil : s = [] := List.length_eq_zero.mp (by omega)
    subst hnil
    rw [splitPlainLoop_nil]
    show (acc, none) = (acc ++ [], (none : Option JoinErrorU))
    rw [List.append_nil]
  | succ n ih =>
    intro s hs idx acc fs hfs
    by_cases hnil : s = []
    · subst hnil
      rw [splitPlainLoop_nil]
      show (acc, none) = (acc ++ [], (none : Option JoinErrorU))
      rw [List.append_nil]
    · have hdrop : (s.drop c).length ≤ n := by
        rw [List.length_drop]
        have : 0 < s.length := List.length_pos.mpr hnil
        omega
      rw [splitPlainLoop_cons md5h base hc hnil idx] at hfs ⊢
      have hhead : fs (pathJoin dir (partName base idx)) = some (s.take c) :=
        hfs (partName base idx) (s.take c) (List.mem_cons_self _ _)
      rw [joinLoopU, hhead]
      show (if md5h (s.take c) ≠ md5h (s.take c) then _ else
        joinLoopU md5h fs dir _ (acc ++ s.take c)) = _
      rw [if_neg (by simp)]
      rw [ih (s.drop c) hdrop (idx + 1) (acc ++ s.take c) fs
        (fun nm ct hm => hfs nm ct (List.mem_cons_of_mem _ hm))]
      rw [List.append_assoc, List.take_append_drop]

theorem ceil_div_rec {c m : Nat} (hc : 0 < c) (hm : 0 < m) :
    (m + c - 1) / c = (m - c + c - 1) / c + 1 := by
  rcases le_or_lt m c with h | h
  · have h1 : m - c = 0 := by omega
    rw [h1, Nat.zero_add]
    have h2 : (c - 1) / c = 0 := Nat.div_eq_of_lt (by omega)
    have h3 : m + c - 1 = (m - 1) + c := by omega
    rw [h2, h3, Nat.add_div_right _ hc]
    have h4 : (m - 1) / c = 0 := Nat.div_eq_of_lt (by omega)
    rw [h4]
  · have h3 : m + c - 1 = (m - c + c - 1) + c := by omega
    rw [h3, Nat.add_div_right _ hc]

theorem splitPlainLoop_parts_length (md5h : List Nat → String) (base : String)
    {c : Nat} (hc : 0 < c) :
    ∀ (n : Nat) (s : List Nat), s.length ≤ n → ∀ (idx : Nat),
      (splitPlainLoop md5h base (c : Int) s idx).2.length =
        (s.length + c - 1) / c := by
  intro n
  induction n with
  | zero =>
    intro s hs idx
    have hnil : s = [] := List.length_eq_zero.mp (by omega)
    subst hnil
    rw [splitPlainLoop_nil]
    show 0 = (0 + c - 1) / c
    rw [Nat.zero_add]
    exact (Nat.div_eq_of_lt (by omega)).symm
  | succ n ih =>
    intro s hs idx
    by_cases hnil : s = []
    · subst hnil
      rw [splitPlainLoop_nil]
      show 0 = (0 + c - 1) / c
      rw [Nat.zero_add]
      exact (Nat.div_eq_of_lt (by omega)).symm
    · have hpos : 0 < s.length := List.length_pos.mpr hnil
      have hdrop : (s.drop c).length ≤ n := by
        rw [List.length_drop]; omega
      rw [splitPlainLoop_cons md5h base hc hnil idx]
      show (splitPlainLoop md5h base (c : Int) (s.drop c) (idx + 1)).2.length + 1 =
        (s.length + c - 1) / c
      rw [ih (s.drop c) hdrop (idx + 1), List.length_drop]
      exact (ceil_div_rec hc hpos).symm

theorem splitPlainLoop_parts_nonempty (md5h : List Nat → String) (base : String)
    {c : Nat} (hc : 0 < c) {s : List Nat} (hs : s ≠ []) (idx : Nat) :
    (splitPlainLoop md5h base (c : Int) s idx).2 ≠ [] := by
  rw [splitPlainLoop_cons md5h base hc hs idx]
  exact List.cons_ne_nil _ _

theorem splitPlainLoop_sizes (md5h : List Nat → String) (base : String)
    {c : Nat} (hc : 0 < c) :
    ∀ (n : Nat) (s : List Nat), s.length ≤ n → ∀ (idx : Nat),
      (∀ p ∈ (splitPlainLoop md5h base (c : Int) s idx).2.dropLast, p.size = c) ∧
      (s ≠ [] →
        ((splitPlainLoop md5h base (c : Int) s idx).2.getLast?).map
            (fun p => p.size) =
          some (if s.length % c = 0 then c else s.length % c)) := by
  intro n
  induction n with
  | zero =>
    intro s hs idx
    have hnil : s = [] := List.length_eq_zero.mp (by omega)
    subst hnil
    constructor
    · rw [splitPlainLoop_nil]
      intro p hp
      simp at hp
    · intro h; exact absurd rfl h
  | succ n ih =>
    intro s hs idx
    by_cases hnil : s = []
    · subst hnil
      constructor
      · rw [splitPlainLoop_nil]
        intro p hp
        simp at hp
      · intro h; exact absurd rfl h
    · have hpos : 0 < s.length := List.length_pos.mpr hnil
      have hdrop : (s.drop c).length ≤ n := by
        rw [List.length_drop]; omega
      rw [splitPlainLoop_cons md5h base hc hnil idx]
      rcases le_or_lt s.length c with hle | hgt
      · -- the final part: the rest of the loop produces nothing
        have hdnil : s.drop c = [] := List.drop_eq_nil_of_le hle
        rw [hdnil, splitPlainLoop_nil]
        constructor
        · intro p hp
          simp at hp
        · intro _
          show some ((s.take c).length) = _
          rw [List.length_take, min_eq_right hle]
          congr 1
          rcases eq_or_lt_of_le hle with he | hlt
          · rw [he, if_pos (Nat.mod_self c)]
          · rw [Nat.mod_eq_of_lt hlt, if_neg (by omega)]
      · -- a full-size part followed by at least one more
        have hdne : s.drop c ≠ [] := by
          rw [Ne, List.drop_eq_nil_iff]
          omega
        obtain ⟨ihdrop, ihlast⟩ := ih (s.drop c) hdrop (idx + 1)
        have hrne : (splitPlainLoop md5h base (c : Int) (s.drop c) (idx + 1)).2 ≠ [] :=
          splitPlainLoop_parts_nonempty md5h base hc hdne (idx + 1)
        constructor
        · intro p hp
          rw [List.dropLast_cons_of_ne_nil hrne] at hp
          rcases List.mem_cons.mp hp with h | h
          · rw [h]
            show (s.take c).length = c
            rw [List.length_take, min_eq_left (by omega)]
          · exact ihdrop p h
        · intro _
          obtain ⟨q, L, hq⟩ := List.exists_cons_of_ne_nil hrne
          show Option.map (fun p => p.size)
            ({ filename := partName base idx, size := (s.take c).length,
               md5 := md5h (s.take c) } ::
              (splitPlainLoop md5h base (c : Int) (s.drop c) (idx + 1)).2).getLast? = _
          rw [hq, List.getLast?_cons_cons, ← hq]
          rw [ihlast hdne, List.length_drop]
          congr 1
          have hmod : (s.length - c) % c = s.length % c := by
            conv_rhs => rw [← Nat.sub_add_cancel (le_of_lt hgt)]
            rw [Nat.add_mod_right]
          rw [hmod]

theorem joinLoopU_all_pass (md5h : List Nat → String)
    (fs : String → Option (List Nat)) (dir : String)
    (ct : PartRecord → List Nat) :
    ∀ (parts : List PartRecord) (acc : List Nat),
      (∀ p ∈ parts, fs (pathJoin dir p.filename) = some (ct p) ∧
        md5h (ct p) = p.md5) →
      joinLoopU md5h fs dir parts acc =
        (acc ++ (parts.map ct).flatten, none) := by
  intro parts
  induction parts with
  | nil =>
    intro acc _
    show (acc, none) = (acc ++ ([] : List (List Nat)).flatten, none)
    rw [List.flatten_nil, List.append_nil]
  | cons p rest ih =>
    intro acc h
    obtain ⟨hfs, hmd5⟩ := h p (List.mem_cons_self _ _)
    rw [joinLoopU, hfs]
    show (if md5h (ct p) ≠ p.md5 then _ else
      joinLoopU md5h fs dir rest (acc ++ ct p)) = _
    rw [if_neg (by rw [hmd5]; simp)]
    rw [ih (acc ++ ct p) (fun q hq => h q (List.mem_cons_of_mem _ hq))]
    rw [List.map_cons, List.flatten_cons, List.append_assoc]

theorem joinLoopP_all_pass (md5h : List Nat → String)
    (fs : String → Option (List Nat)) (dir : String)
    (ct : PartRecord → List Nat) :
    ∀ (parts : List PartRecord) (acc : List Nat),
      (∀ p ∈ parts, fs (pathJoin dir p.filename) = some (ct p) ∧
        md5h (ct p) = p.md5) →
      joinLoopP md5h fs dir parts acc =
        (acc ++ (parts.map ct).flatten, none) := by
  intro parts
  induction parts with
  | nil =>
    intro acc _
    show (acc, none) = (acc ++ ([] : List (List Nat)).flatten, none)
    rw [List.flatten_nil, List.append_nil]
  | cons p rest ih =>
    intro acc h
    obtain ⟨hfs, hmd5⟩ := h p (List.mem_cons_self _ _)
    rw [joinLoopP, hfs]
    show (if md5h (ct p) ≠ p.md5 then _ else
      joinLoopP md5h fs dir rest (acc ++ ct p)) = _
    rw [if_neg (by rw [hmd5]; simp)]
    rw [ih (acc ++ ct p) (fun q hq => h q (List.mem_cons_of_mem _ hq))]
    rw [List.map_cons, List.flatten_cons, List.append_assoc]

theorem joinLoopU_abort (md5h : List Nat → String)
    (fs : String → Option (List Nat)) (dir : String)
    (ct : PartRecord → List Nat) :
    ∀ (pre : List PartRecord) (p : PartRecord) (post : List PartRecord)
      (acc : List Nat) (cp : List Nat),
      (∀ q ∈ pre, fs (pathJoin dir q.filename) = some (ct q) ∧
        md5h (ct q) = q.md5) →
      fs (pathJoin dir p.filename) = some cp →
      md5h cp ≠ p.md5 →
      joinLoopU md5h fs dir (pre ++ p :: post) acc =
        (acc ++ (pre.map ct).flatten,
         some (.checksumMismatch p.filename p.md5 (md5h cp))) := by
  intro pre
  induction pre with
  | nil =>
    intro p post acc cp _ hp hbad
    rw [List.nil_append, joinLoopU, hp]
    show (if md5h cp ≠ p.md5 then
      (acc, some (JoinErrorU.checksumMismatch p.filename p.md5 (md5h cp))) else _) = _
    rw [if_pos hbad]
    show (acc, _) = (acc ++ ([] : List (List Nat)).flatten, _)
    rw [List.flatten_nil, List.append_nil]
  | cons q rest ih =>
    intro p post acc cp hpre hp hbad
    obtain ⟨hfs, hmd5⟩ := hpre q (List.mem_cons_self _ _)
    rw [List.cons_append, joinLoopU, hfs]
    show (if md5h (ct q) ≠ q.md5 then _ else
      joinLoopU md5h fs dir (rest ++ p :: post) (acc ++ ct q)) = _
    rw [if_neg (by rw [hmd5]; simp)]
    rw [ih p post (acc ++ ct q) cp
      (fun r hr => hpre r (List.mem_cons_of_mem _ hr)) hp hbad]
    rw [List.map_cons, List.flatten_cons, List.append_assoc]

theorem joinLoopP_abort (md5h : List Nat → String)
    (fs : String → Option (List Nat)) (dir : String)
    (ct : PartRecord → List Nat) :
    ∀ (pre : List PartRecord) (p : PartRecord) (post : List PartRecord)
      (acc : List Nat) (cp : List Nat),
      (∀ q ∈ pre, fs (pathJoin dir q.filename) = some (ct q) ∧
        md5h (ct q) = q.md5) →
      fs (pathJoin dir p.filename) = some cp →
      md5h cp ≠ p.md5 →
      joinLoopP md5h fs dir (pre ++ p :: post) acc =
        (acc ++ (pre.map ct).flatten,
         some (.checksumMismatch p.filename)) := by
  intro pre
  induction pre with
  | nil =>
    intro p post acc cp _ hp hbad
    rw [List.nil_append, joinLoopP, hp]
    show (if md5h cp ≠ p.md5 then
      (acc, some (JoinErrorP.checksumMismatch p.filename)) else _) = _
    rw [if_pos hbad]
    show (acc, _) = (acc ++ ([] : List (List Nat)).flatten, _)
    rw [List.flatten_nil, List.append_nil]
  | cons q rest ih =>
    intro p post acc cp hpre hp hbad
    obtain ⟨hfs, hmd5⟩ := hpre q (List.mem_cons_self _ _)
    rw [List.cons_append, joinLoopP, hfs]
    show (if md5h (ct q) ≠ q.md5 then _ else
      joinLoopP md5h fs dir (rest ++ p :: post) (acc ++ ct q)) = _
    rw [if_neg (by rw [hmd5]; simp)]
    rw [ih p post (acc ++ ct q) cp
      (fun r hr => hpre r (List.mem_cons_of_mem _ hr)) hp hbad]
    rw [List.map_cons, List.flatten_cons, List.append_assoc]

/-- A concrete stand-in digest function used to instantiate the abstract
`md5h` parameter in closed examples: distinct on the byte lists those
examples use. -/
def demoHash (bs : List Nat) : String :=
  String.mk ('h' :: bs.map (fun b => digitChar (b % 10)))

theorem decString_one : decString 1 = "1" := by
  rw [decString, if_neg (by norm_num), Nat.digits_of_lt 10 1 (by norm_num) (by norm_num)]
  decide

theorem decString_two : decString 2 = "2" := by
  rw [decString, if_neg (by norm_num), Nat.digits_of_lt 10 2 (by norm_num) (by norm_num)]
  decide

theorem partName_f_one : partName "f" 1 = "f.part001" := by
  rw [partName, pad3, if_pos (by norm_num), decString_one]
  decide

theorem partName_f_two : partName "f" 2 = "f.part002" := by
  rw [partName, pad3, if_pos (by norm_num), decString_two]
  decide

/-- The canonical output of splitting the 3-byte file `[1, 2, 3]` with
chunk size 2 under `demoHash`, used by the closed examples. -/
def demoSplit : SplitOutput :=
  { outputDir := "p/f_split",
    partFiles := [("f.part001", [1, 2]), ("f.part002", [3])],
    manifestName := "f.manifest.json",
    manifest := { original_filename := "f",
                  total_parts := 2,
                  chunk_size_bytes := 2,
                  timestamp := "t",
                  parts := [{ filename := "f.part001", size := 2, md5 := "h12" },
                            { filename := "f.part002", size := 1, md5 := "h3" }] } }

theorem splitPlain_demo_eval :
    splitPlainLoop demoHash "f" ((2 : Nat) : Int) [1, 2, 3] 1 =
      ([("f.part001", [1, 2]), ("f.part002", [3])],
       [{ filename := "f.part001", size := 2, md5 := "h12" },
        { filename := "f.part002", size := 1, md5 := "h3" }]) := by
  rw [splitPlainLoop_cons demoHash "f" (by norm_num) (by decide) 1]
  show ((partName "f" 1, [1, 2]) ::
      (splitPlainLoop demoHash "f" ((2 : Nat) : Int) [3] 2).1,
    { filename := partName "f" 1, size := 2, md5 := demoHash [1, 2] } ::
      (splitPlainLoop demoHash "f" ((2 : Nat) : Int) [3] 2).2) = _
  rw [splitPlainLoop_cons demoHash "f" (by norm_num) (by decide) 2]
  show ((partName "f" 1, [1, 2]) ::
      ((partName "f" 2, [3]) :: (splitPlainLoop demoHash "f" ((2 : Nat) : Int) [] 3).1),
    { filename := partName "f" 1, size := 2, md5 := demoHash [1, 2] } ::
      ({ filename := partName "f" 2, size := 1, md5 := demoHash [3] } ::
        (splitPlainLoop demoHash "f" ((2 : Nat) : Int) [] 3).2)) = _
  rw [splitPlainLoop_nil, partName_f_one, partName_f_two]
  decide

theorem splitUtil_demo_eval :
    splitUtilLoop demoHash "f" WRITE_BLOCK 2 [1, 2, 3] 1 =
      ([("f.part001", [1, 2]), ("f.part002", [3])],
       [{ filename := "f.part001", size := 2, md5 := "h12" },
        { filename := "f.part002", size := 1, md5 := "h3" }]) := by
  rw [splitUtilLoop_eq_plainLoop demoHash "f" (by norm_num [WRITE_BLOCK]) (by norm_num)
    [1, 2, 3] 1]
  exact splitPlain_demo_eval

theorem split_demo_eval :
    split_file_utility demoHash "t" "f" "p" (some [1, 2, 3]) none 2 = .ok demoSplit := by
  rw [split_file_utility]
  rw [if_neg (by norm_num)]
  show Except.ok
    ({ outputDir := pathJoin "p" ("f" ++ "_split"),
       partFiles := (splitUtilLoop demoHash "f" WRITE_BLOCK (Int.toNat 2) [1, 2, 3] 1).1,
       manifestName := "f" ++ ".manifest.json",
       manifest := { original_filename := "f",
                     total_parts := (splitUtilLoop demoHash "f" WRITE_BLOCK (Int.toNat 2) [1, 2, 3] 1).2.length,
                     chunk_size_bytes := 2,
                     timestamp := "t",
                     parts := (splitUtilLoop demoHash "f" WRITE_BLOCK (Int.toNat 2) [1, 2, 3] 1).2 } } : SplitOutput) = _
  have h2 : Int.toNat 2 = 2 := rfl
  rw [h2, splitUtil_demo_eval]
  rfl

/-- C1: for every file `F` (byte sequence `data`) and every chunk size
`C > 0`, running the joiner on the manifest and part files produced by
splitting `F` with chunk size `C` yields output whose byte content is
exactly `F`, with no error. -/
theorem C1_split_join_roundtrip (md5h : List Nat → String)
    (ts base parentDir dir : String) (output_dir : Option String)
    (data : List Nat) (c : Int) (hc : 0 < c) (r : SplitOutput)
    (hr : split_file_utility md5h ts base parentDir (some data) output_dir c = .ok r) :
    (join_from_manifest_utility md5h (fsOf dir r.partFiles) dir none
      r.manifest).content = data ∧
    (join_from_manifest_utility md5h (fsOf dir r.partFiles) dir none
      r.manifest).error = none := by
  simp only [split_file_utility] at hr
  rw [if_neg (by omega : ¬ c ≤ 0)] at hr
  injection hr with hr
  subst hr
  have hW : 0 < WRITE_BLOCK := by norm_num [WRITE_BLOCK]
  have hcn : 0 < c.toNat := by omega
  have hkey : joinLoopU md5h
      (fsOf dir (splitUtilLoop md5h base WRITE_BLOCK c.toNat data 1).1) dir
      (splitUtilLoop md5h base WRITE_BLOCK c.toNat data 1).2 [] =
      ([] ++ data, none) := by
    rw [splitUtilLoop_eq_plainLoop md5h base hW hcn data 1]
    exact join_split_loop md5h base dir hcn data.length data le_rfl 1 []
      (fsOf dir (splitPlainLoop md5h base (c.toNat : Int) data 1).1)
      (fun nm ct hm => fsOf_split_correct md5h base dir hcn data 1 nm ct hm)
  rw [List.nil_append] at hkey
  constructor
  · show (joinLoopU md5h
      (fsOf dir (splitUtilLoop md5h base WRITE_BLOCK c.toNat data 1).1) dir
      (splitUtilLoop md5h base WRITE_BLOCK c.toNat data 1).2 []).1 = data
    rw [hkey]
  · show (joinLoopU md5h
      (fsOf dir (splitUtilLoop md5h base WRITE_BLOCK c.toNat data 1).1) dir
      (splitUtilLoop md5h base WRITE_BLOCK c.toNat data 1).2 []).2 = none
    rw [hkey]

theorem C1_split_join_roundtrip_witness :
    (join_from_manifest_utility demoHash (fsOf "d" demoSplit.partFiles) "d" none
      demoSplit.manifest).content = [1, 2, 3] ∧
    (join_from_manifest_utility demoHash (fsOf "d" demoSplit.partFiles) "d" none
      demoSplit.manifest).error = none :=
  C1_split_join_roundtrip demoHash "t" "f" "p" "d" none [1, 2, 3] 2
    (by norm_num) demoSplit split_demo_eval

/-- C2: for a source of size `S > 0` and chunk size `C > 0`, both
splitters' manifests have `total_parts = ⌈S / C⌉` (written
`(S + C - 1) / C` in natural division), every part except the last has
recorded size `C`, and the last part's recorded size is `S mod C`, or `C`
when `C` divides `S`. -/
theorem C2_chunking_correctness (md5h : List Nat → String)
    (ts base parentDir fileDir : String) (output_dir : Option String)
    (data : List Nat) (hdata : data ≠ []) (c : Int) (hc : 0 < c)
    (r : SplitOutput)
    (hr : split_file_utility md5h ts base parentDir (some data) output_dir c = .ok r) :
    (r.manifest.total_parts = (data.length + c.toNat - 1) / c.toNat ∧
     (∀ p ∈ r.manifest.parts.dropLast, p.size = c.toNat) ∧
     (r.manifest.parts.getLast?).map (fun p => p.size) =
       some (if data.length % c.toNat = 0 then c.toNat else data.length % c.toNat)) ∧
    ((split_file_plain md5h ts base fileDir data c).manifest.total_parts =
       (data.length + c.toNat - 1) / c.toNat ∧
     (∀ p ∈ (split_file_plain md5h ts base fileDir data c).manifest.parts.dropLast,
       p.size = c.toNat) ∧
     ((split_file_plain md5h ts base fileDir data c).manifest.parts.getLast?).map
         (fun p => p.size) =
       some (if data.length % c.toNat = 0 then c.toNat else data.length % c.toNat)) := by
  simp only [split_file_utility] at hr
  rw [if_neg (by omega : ¬ c ≤ 0)] at hr
  injection hr with hr
  subst hr
  have hW : 0 < WRITE_BLOCK := by norm_num [WRITE_BLOCK]
  have hcn : 0 < c.toNat := by omega
  have hcast : ((c.toNat : Nat) : Int) = c := Int.toNat_of_nonneg (by omega)
  have hlen := splitPlainLoop_parts_length md5h base hcn data.length data le_rfl 1
  have hsizes := splitPlainLoop_sizes md5h base hcn data.length data le_rfl 1
  constructor
  · refine ⟨?_, ?_, ?_⟩
    · show (splitUtilLoop md5h base WRITE_BLOCK c.toNat data 1).2.length = _
      rw [splitUtilLoop_eq_plainLoop md5h base hW hcn data 1]
      exact hlen
    · intro p hp
      have hp' : p ∈ (splitUtilLoop md5h base WRITE_BLOCK c.toNat data 1).2.dropLast := hp
      rw [splitUtilLoop_eq_plainLoop md5h base hW hcn data 1] at hp'
      exact hsizes.1 p hp'
    · show Option.map (fun p => p.size)
        ((splitUtilLoop md5h base WRITE_BLOCK c.toNat data 1).2.getLast?) = _
      rw [splitUtilLoop_eq_plainLoop md5h base hW hcn data 1]
      exact hsizes.2 hdata
  · refine ⟨?_, ?_, ?_⟩
    · show (splitPlainLoop md5h base c data 1).2.length = _
      rw [← hcast]
      exact hlen
    · intro p hp
      have hp' : p ∈ (splitPlainLoop md5h base c data 1).2.dropLast := hp
      rw [← hcast] at hp'
      exact hsizes.1 p hp'
    · show Option.map (fun p => p.size)
        ((splitPlainLoop md5h base c data 1).2.getLast?) = _
      rw [← hcast]
      exact hsizes.2 hdata

theorem C2_chunking_correctness_witness :
    ((demoSplit.manifest.total_parts = (([1, 2, 3] : List Nat).length + (2 : Int).toNat - 1) / (2 : Int).toNat ∧
     (∀ p ∈ demoSplit.manifest.parts.dropLast, p.size = (2 : Int).toNat) ∧
     (demoSplit.manifest.parts.getLast?).map (fun p => p.size) =
       some (if ([1, 2, 3] : List Nat).length % (2 : Int).toNat = 0 then (2 : Int).toNat
         else ([1, 2, 3] : List Nat).length % (2 : Int).toNat)) ∧
    ((split_file_plain demoHash "t" "f" "p" [1, 2, 3] 2).manifest.total_parts =
       (([1, 2, 3] : List Nat).length + (2 : Int).toNat - 1) / (2 : Int).toNat ∧
     (∀ p ∈ (split_file_plain demoHash "t" "f" "p" [1, 2, 3] 2).manifest.parts.dropLast,
       p.size = (2 : Int).toNat) ∧
     ((split_file_plain demoHash "t" "f" "p" [1, 2, 3] 2).manifest.parts.getLast?).map
         (fun p => p.size) =
       some (if ([1, 2, 3] : List Nat).length % (2 : Int).toNat = 0 then (2 : Int).toNat
         else ([1, 2, 3] : List Nat).length % (2 : Int).toNat))) :=
  C2_chunking_correctness demoHash "t" "f" "p" "p" none [1, 2, 3] (by decide) 2
    (by norm_num) demoSplit split_demo_eval

/-- A one-part manifest whose recorded digest matches neither of the
on-disk contents used in the C3 counterexample. -/
def demoManifestBad : Manifest :=
  { original_filename := "f", total_parts := 1, chunk_size_bytes := 2,
    timestamp := "t",
    parts := [{ filename := "f.part001", size := 1, md5 := "h0" }] }

/-- Directory `d` holding `f.part001` with content `[1]`. -/
def demoFsOne : String → Option (List Nat) :=
  fun p => if p = pathJoin "d" "f.part001" then some [1] else none

/-- Directory `d` holding `f.part001` with content `[2]`. -/
def demoFsTwo : String → Option (List Nat) :=
  fun p => if p = pathJoin "d" "f.part001" then some [2] else none

/-- C3 counterexample: the claim says the joiner's checksum error gives
both the expected and the actual digest, but `joiner.py` raises
`ValueError(f"Checksum mismatch in {filename}")`: two runs over part
files with different contents — hence different actual digests — produce
literally identical outcomes and identical error messages, so the error
cannot convey the actual digest. -/
theorem C3_counterexample :
    demoHash [1] ≠ demoHash [2] ∧
    join_from_manifest_plain demoHash demoFsOne "d" demoManifestBad =
      join_from_manifest_plain demoHash demoFsTwo "d" demoManifestBad ∧
    (join_from_manifest_plain demoHash demoFsOne "d" demoManifestBad).error =
      some (.checksumMismatch "f.part001") ∧
    joinErrorPMessage (.checksumMismatch "f.part001") =
      "Checksum mismatch in f.part001" := by
  refine ⟨by decide, ?_, ?_, rfl⟩
  · show JoinOutcomeP.mk _ _ _ = JoinOutcomeP.mk _ _ _
    decide
  · decide

/-- C3 (amended): on the first part whose recomputed digest differs from
the recorded one, both joiners abort immediately with a checksum-mismatch
error naming that part, leave the output holding only the bytes of the
parts before it, and never touch the remaining parts (the result is
independent of `post`); `joiner_utility.py`'s error additionally carries
the expected and actual digests, while `joiner.py`'s carries only the
part name. -/
theorem C3_checksum_mismatch_failfast (md5h : List Nat → String)
    (fs : String → Option (List Nat)) (manifestDir : String)
    (output_dir : Option String) (m : Manifest)
    (pre : List PartRecord) (p : PartRecord) (post : List PartRecord)
    (hparts : m.parts = pre ++ p :: post)
    (ct : PartRecord → List Nat)
    (hpre : ∀ q ∈ pre, fs (pathJoin manifestDir q.filename) = some (ct q) ∧
      md5h (ct q) = q.md5)
    (cp : List Nat) (hp : fs (pathJoin manifestDir p.filename) = some cp)
    (hbad : md5h cp ≠ p.md5) :
    (join_from_manifest_utility md5h fs manifestDir output_dir m).error =
      some (.checksumMismatch p.filename p.md5 (md5h cp)) ∧
    (join_from_manifest_utility md5h fs manifestDir output_dir m).content =
      (pre.map ct).flatten ∧
    (join_from_manifest_plain md5h fs manifestDir m).error =
      some (.checksumMismatch p.filename) ∧
    (join_from_manifest_plain md5h fs manifestDir m).content =
      (pre.map ct).flatten := by
  have hU := joinLoopU_abort md5h fs manifestDir ct pre p post [] cp hpre hp hbad
  have hP := joinLoopP_abort md5h fs manifestDir ct pre p post [] cp hpre hp hbad
  rw [List.nil_append] at hU hP
  refine ⟨?_, ?_, ?_, ?_⟩
  · show (joinLoopU md5h fs manifestDir m.parts []).2 = _
    rw [hparts, hU]
  · show (joinLoopU md5h fs manifestDir m.parts []).1 = _
    rw [hparts, hU]
  · show (joinLoopP md5h fs manifestDir m.parts []).2 = _
    rw [hparts, hP]
  · show (joinLoopP md5h fs manifestDir m.parts []).1 = _
    rw [hparts, hP]

/-- The three-part manifest used by the C3 witness: the first part is
intact, the second is corrupted, the third is absent from disk. -/
def demoManifestMix : Manifest :=
  { original_filename := "f", total_parts := 3, chunk_size_bytes := 2,
    timestamp := "t",
    parts := [{ filename := "f.part001", size := 2, md5 := "h12" },
              { filename := "f.part002", size := 1, md5 := "XX" },
              { filename := "f.part009", size := 5, md5 := "zz" }] }

/-- Directory `d` for the C3 witness: `f.part001` has its original bytes,
`f.part002` holds `[3]` (digest `h3`, not the recorded `XX`),
`f.part009` does not exist. -/
def demoFsMix : String → Option (List Nat) :=
  fun p =>
    if p = pathJoin "d" "f.part001" then some [1, 2]
    else if p = pathJoin "d" "f.part002" then some [3]
    else none

theorem C3_checksum_mismatch_failfast_witness :
    (join_from_manifest_utility demoHash demoFsMix "d" none demoManifestMix).error =
      some (.checksumMismatch "f.part002" "XX" (demoHash [3])) ∧
    (join_from_manifest_utility demoHash demoFsMix "d" none demoManifestMix).content =
      (([{ filename := "f.part001", size := 2, md5 := "h12" }] : List PartRecord).map
        (fun _ => [1, 2])).flatten ∧
    (join_from_manifest_plain demoHash demoFsMix "d" demoManifestMix).error =
      some (.checksumMismatch "f.part002") ∧
    (join_from_manifest_plain demoHash demoFsMix "d" demoManifestMix).content =
      (([{ filename := "f.part001", size := 2, md5 := "h12" }] : List PartRecord).map
        (fun _ => [1, 2])).flatten :=
  C3_checksum_mismatch_failfast demoHash demoFsMix "d" none demoManifestMix
    [{ filename := "f.part001", size := 2, md5 := "h12" }]
    { filename := "f.part002", size := 1, md5 := "XX" }
    [{ filename := "f.part009", size := 5, md5 := "zz" }]
    rfl (fun _ => [1, 2]) (by decide) [3] (by decide) (by decide)

/-- C4 counterexample: splitting a zero-byte file neither fails nor
produces a single zero-length part: `split_file` succeeds with an empty
`parts` list (`total_parts = 0`) and writes no part files. -/
theorem C4_counterexample :
    split_file_utility demoHash "t" "f" "p" (some []) none 2 =
      .ok { outputDir := "p/f_split", partFiles := [],
            manifestName := "f.manifest.json",
            manifest := { original_filename := "f", total_parts := 0,
                          chunk_size_bytes := 2, timestamp := "t",
                          parts := [] } } := by
  have h0 : splitUtilLoop demoHash "f" WRITE_BLOCK (Int.toNat 2) [] 1 = ([], []) := by
    rw [splitUtilLoop]
    rw [dif_pos (Or.inl rfl)]
  rw [split_file_utility]
  rw [if_neg (by norm_num)]
  show Except.ok
    ({ outputDir := pathJoin "p" ("f" ++ "_split"),
       partFiles := (splitUtilLoop demoHash "f" WRITE_BLOCK (Int.toNat 2) [] 1).1,
       manifestName := "f" ++ ".manifest.json",
       manifest := { original_filename := "f",
                     total_parts := (splitUtilLoop demoHash "f" WRITE_BLOCK (Int.toNat 2) [] 1).2.length,
                     chunk_size_bytes := 2,
                     timestamp := "t",
                     parts := (splitUtilLoop demoHash "f" WRITE_BLOCK (Int.toNat 2) [] 1).2 } } : SplitOutput) = _
  rw [h0]
  rfl

/-- C4 (amended): for any chunk size `C > 0`, splitting a zero-byte
source file succeeds and yields a manifest whose `parts` list is empty
(`total_parts = 0`) with no part files written — rather than one
zero-length part or a failure; and for every non-empty source file the
manifest's `parts` list is non-empty.  Both splitter variants behave this
way. -/
theorem C4_empty_and_nonempty_sources (md5h : List Nat → String)
    (ts base parentDir fileDir : String) (output_dir : Option String)
    (c : Int) (hc : 0 < c) :
    (∀ r, split_file_utility md5h ts base parentDir (some []) output_dir c = .ok r →
      r.manifest.parts = [] ∧ r.manifest.total_parts = 0 ∧ r.partFiles = []) ∧
    (∃ r, split_file_utility md5h ts base parentDir (some []) output_dir c = .ok r) ∧
    (∀ data : List Nat, data ≠ [] → ∀ r,
      split_file_utility md5h ts base parentDir (some data) output_dir c = .ok r →
      r.manifest.parts ≠ []) ∧
    (split_file_plain md5h ts base fileDir [] c).manifest.parts = [] ∧
    (∀ data : List Nat, data ≠ [] →
      (split_file_plain md5h ts base fileDir data c).manifest.parts ≠ []) := by
  have hW : 0 < WRITE_BLOCK := by norm_num [WRITE_BLOCK]
  have hcn : 0 < c.toNat := by omega
  have hcast : ((c.toNat : Nat) : Int) = c := Int.toNat_of_nonneg (by omega)
  have h0 : splitUtilLoop md5h base WRITE_BLOCK c.toNat [] 1 = ([], []) := by
    rw [splitUtilLoop]
    rw [dif_pos (Or.inl rfl)]
  refine ⟨?_, ?_, ?_, ?_, ?_⟩
  · intro r hr
    simp only [split_file_utility] at hr
    rw [if_neg (by omega : ¬ c ≤ 0)] at hr
    injection hr with hr
    subst hr
    refine ⟨?_, ?_, ?_⟩
    · show (splitUtilLoop md5h base WRITE_BLOCK c.toNat [] 1).2 = []
      rw [h0]
    · show (splitUtilLoop md5h base WRITE_BLOCK c.toNat [] 1).2.length = 0
      rw [h0]
      rfl
    · show (splitUtilLoop md5h base WRITE_BLOCK c.toNat [] 1).1 = []
      rw [h0]
  · cases he : split_file_utility md5h ts base parentDir (some []) output_dir c with
    | error e =>
      exfalso
      simp only [split_file_utility] at he
      rw [if_neg (by omega : ¬ c ≤ 0)] at he
      exact Except.noConfusion he
    | ok r => exact ⟨r, rfl⟩
  · intro data hdata r hr
    simp only [split_file_utility] at hr
    rw [if_neg (by omega : ¬ c ≤ 0)] at hr
    injection hr with hr
    subst hr
    show (splitUtilLoop md5h base WRITE_BLOCK c.toNat data 1).2 ≠ []
    rw [splitUtilLoop_eq_plainLoop md5h base hW hcn data 1]
    exact splitPlainLoop_parts_nonempty md5h base hcn hdata 1
  · show (splitPlainLoop md5h base c [] 1).2 = []
    rw [← hcast, splitPlainLoop_nil]
  · intro data hdata
    show (splitPlainLoop md5h base c data 1).2 ≠ []
    rw [← hcast]
    exact splitPlainLoop_parts_nonempty md5h base hcn hdata 1

theorem C4_empty_and_nonempty_sources_witness :
    ((∀ r, split_file_utility demoHash "t" "f" "p" (some []) none 2 = .ok r →
      r.manifest.parts = [] ∧ r.manifest.total_parts = 0 ∧ r.partFiles = []) ∧
    (∃ r, split_file_utility demoHash "t" "f" "p" (some []) none 2 = .ok r) ∧
    (∀ data : List Nat, data ≠ [] → ∀ r,
      split_file_utility demoHash "t" "f" "p" (some data) none 2 = .ok r →
      r.manifest.parts ≠ []) ∧
    (split_file_plain demoHash "t" "f" "p" [] 2).manifest.parts = [] ∧
    (∀ data : List Nat, data ≠ [] →
      (split_file_plain demoHash "t" "f" "p" data 2).manifest.parts ≠ [])) :=
  C4_empty_and_nonempty_sources demoHash "t" "f" "p" "p" none 2 (by norm_num)

/-- C5 counterexample: the claim says every splitter fails with
InvalidArgument on chunk size ≤ 0 with no directory, parts or manifest
written, but `splitter.py`'s `split_file` performs no chunk-size check:
with chunk size 0 it returns normally, having created the output
directory and written a manifest with zero parts. -/
theorem C5_counterexample :
    split_file_plain demoHash "t" "f" "p" [1, 2, 3] 0 =
      { outputDir := "p/f_split",
        partFiles := [],
        manifestName := "f.manifest.json",
        manifest := { original_filename := "f", total_parts := 0,
                      chunk_size_bytes := 0, timestamp := "t",
                      parts := [] } } := by
  have h0 : splitPlainLoop demoHash "f" 0 [1, 2, 3] 1 = ([], []) := by
    rw [splitPlainLoop]
    rw [dif_pos (by decide)]
  rw [split_file_plain]
  show SplitOutput.mk (pathJoin "p" (safe_folder_name ("f" ++ "_split")))
      (splitPlainLoop demoHash "f" 0 [1, 2, 3] 1).1
      ("f" ++ ".manifest.json")
      (Manifest.mk "f" (splitPlainLoop demoHash "f" 0 [1, 2, 3] 1).2.length 0 "t"
        (splitPlainLoop demoHash "f" 0 [1, 2, 3] 1).2) = _
  rw [h0]
  rfl

/-- C5 (amended): `splitter_utility.py`'s `split_file` fails with
InvalidArgument for every existing source file and every chunk size ≤ 0;
the check runs before `os.makedirs` and before any part or manifest
write, so the error carries no output at all.  `splitter.py`'s
`split_file`, by contrast, performs no chunk-size validation (see the
counterexample). -/
theorem C5_invalid_chunk_size (md5h : List Nat → String)
    (ts base parentDir : String) (output_dir : Option String)
    (data : List Nat) (c : Int) (hc : c ≤ 0) :
    split_file_utility md5h ts base parentDir (some data) output_dir c =
      .error .invalidArgument := by
  simp only [split_file_utility]
  rw [if_pos hc]

theorem C5_invalid_chunk_size_witness :
    split_file_utility demoHash "t" "f" "p" (some [1, 2, 3]) none 0 =
      .error .invalidArgument :=
  C5_invalid_chunk_size demoHash "t" "f" "p" none [1, 2, 3] 0 (by norm_num)

/-- C6: when every part of the manifest exists on disk — resolved at
`os.path.join` of the manifest's directory and the part's filename — and
passes its checksum, both joiners' output is exactly the concatenation of
the part contents in the order of the `parts` list (whatever that order
is; nothing is sorted by filename), with no error; and the utility
joiner's output content and error are identical for any two choices of
output directory, since parts are never resolved against the output
directory. -/
theorem C6_concat_in_manifest_order (md5h : List Nat → String)
    (fs : String → Option (List Nat)) (manifestDir : String) (m : Manifest)
    (ct : PartRecord → List Nat)
    (hok : ∀ p ∈ m.parts, fs (pathJoin manifestDir p.filename) = some (ct p) ∧
      md5h (ct p) = p.md5)
    (output_dir output_dir' : Option String) :
    (join_from_manifest_utility md5h fs manifestDir output_dir m).content =
      (m.parts.map ct).flatten ∧
    (join_from_manifest_utility md5h fs manifestDir output_dir m).error = none ∧
    (join_from_manifest_utility md5h fs manifestDir output_dir m).content =
      (join_from_manifest_utility md5h fs manifestDir output_dir' m).content ∧
    (join_from_manifest_utility md5h fs manifestDir output_dir m).error =
      (join_from_manifest_utility md5h fs manifestDir output_dir' m).error ∧
    (join_from_manifest_plain md5h fs manifestDir m).content =
      (m.parts.map ct).flatten ∧
    (join_from_manifest_plain md5h fs manifestDir m).error = none := by
  have hU := joinLoopU_all_pass md5h fs manifestDir ct m.parts [] hok
  have hP := joinLoopP_all_pass md5h fs manifestDir ct m.parts [] hok
  rw [List.nil_append] at hU hP
  refine ⟨?_, ?_, ?_, ?_, ?_, ?_⟩
  · show (joinLoopU md5h fs manifestDir m.parts []).1 = _
    rw [hU]
  · show (joinLoopU md5h fs manifestDir m.parts []).2 = _
    rw [hU]
  · rfl
  · rfl
  · show (joinLoopP md5h fs manifestDir m.parts []).1 = _
    rw [hP]
  · show (joinLoopP md5h fs manifestDir m.parts []).2 = _
    rw [hP]

/-- The manifest used by the C6 witness: its parts list is deliberately
NOT in filename order. -/
def demoManifestRev : Manifest :=
  { original_filename := "f", total_parts := 2, chunk_size_bytes := 2,
    timestamp := "t",
    parts := [{ filename := "f.part002", size := 1, md5 := "h3" },
              { filename := "f.part001", size := 2, md5 := "h12" }] }

/-- Contents of the C6 witness parts, keyed by part record. -/
def demoCt : PartRecord → List Nat :=
  fun q => if q.filename = "f.part002" then [3] else [1, 2]

theorem C6_concat_in_manifest_order_witness :
    (join_from_manifest_utility demoHash demoFsMix "d" none demoManifestRev).content =
      (demoManifestRev.parts.map demoCt).flatten ∧
    (join_from_manifest_utility demoHash demoFsMix "d" none demoManifestRev).error = none ∧
    (join_from_manifest_utility demoHash demoFsMix "d" none demoManifestRev).content =
      (join_from_manifest_utility demoHash demoFsMix "d" (some "elsewhere") demoManifestRev).content ∧
    (join_from_manifest_utility demoHash demoFsMix "d" none demoManifestRev).error =
      (join_from_manifest_utility demoHash demoFsMix "d" (some "elsewhere") demoManifestRev).error ∧
    (join_from_manifest_plain demoHash demoFsMix "d" demoManifestRev).content =
      (demoManifestRev.parts.map demoCt).flatten ∧
    (join_from_manifest_plain demoHash demoFsMix "d" demoManifestRev).error = none :=
  C6_concat_in_manifest_order demoHash demoFsMix "d" demoManifestRev demoCt
    (by decide) none (some "elsewhere")

/-- `demoSplit` as produced by a second run at a different timestamp. -/
def demoSplitU : SplitOutput :=
  { outputDir := "p/f_split",
    partFiles := [("f.part001", [1, 2]), ("f.part002", [3])],
    manifestName := "f.manifest.json",
    manifest := { original_filename := "f",
                  total_parts := 2,
                  chunk_size_bytes := 2,
                  timestamp := "u",
                  parts := [{ filename := "f.part001", size := 2, md5 := "h12" },
                            { filename := "f.part002", size := 1, md5 := "h3" }] } }

theorem split_demo_eval_u :
    split_file_utility demoHash "u" "f" "p" (some [1, 2, 3]) none 2 = .ok demoSplitU := by
  rw [split_file_utility]
  rw [if_neg (by norm_num)]
  show Except.ok
    ({ outputDir := pathJoin "p" ("f" ++ "_split"),
       partFiles := (splitUtilLoop demoHash "f" WRITE_BLOCK (Int.toNat 2) [1, 2, 3] 1).1,
       manifestName := "f" ++ ".manifest.json",
       manifest := { original_filename := "f",
                     total_parts := (splitUtilLoop demoHash "f" WRITE_BLOCK (Int.toNat 2) [1, 2, 3] 1).2.length,
                     chunk_size_bytes := 2,
                     timestamp := "u",
                     parts := (splitUtilLoop demoHash "f" WRITE_BLOCK (Int.toNat 2) [1, 2, 3] 1).2 } } : SplitOutput) = _
  have h2 : Int.toNat 2 = 2 := rfl
  rw [h2, splitUtil_demo_eval]
  rfl

/-- C7: splitting the same byte content twice with the same chunk size
yields manifests with identical `parts` lists (same ordering, filenames,
sizes and digests) and identical part files; every manifest field other
than the timestamp agrees between the two runs. -/
theorem C7_determinism (md5h : List Nat → String)
    (ts1 ts2 base parentDir : String) (output_dir : Option String)
    (data : List Nat) (c : Int) (hc : 0 < c) (r1 r2 : SplitOutput)
    (h1 : split_file_utility md5h ts1 base parentDir (some data) output_dir c = .ok r1)
    (h2 : split_file_utility md5h ts2 base parentDir (some data) output_dir c = .ok r2) :
    r1.manifest.parts = r2.manifest.parts ∧
    r1.partFiles = r2.partFiles ∧
    r1.manifest.original_filename = r2.manifest.original_filename ∧
    r1.manifest.total_parts = r2.manifest.total_parts ∧
    r1.manifest.chunk_size_bytes = r2.manifest.chunk_size_bytes ∧
    r1.manifest.timestamp = ts1 ∧ r2.manifest.timestamp = ts2 := by
  simp only [split_file_utility] at h1 h2
  rw [if_neg (by omega : ¬ c ≤ 0)] at h1 h2
  injection h1 with h1
  injection h2 with h2
  subst h1
  subst h2
  exact ⟨rfl, rfl, rfl, rfl, rfl, rfl, rfl⟩

theorem C7_determinism_witness :
    demoSplit.manifest.parts = demoSplitU.manifest.parts ∧
    demoSplit.partFiles = demoSplitU.partFiles ∧
    demoSplit.manifest.original_filename = demoSplitU.manifest.original_filename ∧
    demoSplit.manifest.total_parts = demoSplitU.manifest.total_parts ∧
    demoSplit.manifest.chunk_size_bytes = demoSplitU.manifest.chunk_size_bytes ∧
    demoSplit.manifest.timestamp = "t" ∧ demoSplitU.manifest.timestamp = "u" :=
  C7_determinism demoHash "t" "u" "f" "p" none [1, 2, 3] 2 (by norm_num)
    demoSplit demoSplitU split_demo_eval split_demo_eval_u

/-- C8: for every source and every chunk size `C > 0`, the two splitter
variants — `splitter.py`'s whole-chunk reads with checksum-by-reread, and
`splitter_utility.py`'s 8 MiB block reads with streaming digest updates —
produce identical part files and identical manifests (same filenames,
sizes and digests, and the same remaining fields given the same
timestamp). -/
theorem C8_variant_equivalence (md5h : List Nat → String)
    (ts base parentDir fileDir : String) (output_dir : Option String)
    (data : List Nat) (c : Int) (hc : 0 < c) (r : SplitOutput)
    (hr : split_file_utility md5h ts base parentDir (some data) output_dir c = .ok r) :
    r.partFiles = (split_file_plain md5h ts base fileDir data c).partFiles ∧
    r.manifest = (split_file_plain md5h ts base fileDir data c).manifest := by
  simp only [split_file_utility] at hr
  rw [if_neg (by omega : ¬ c ≤ 0)] at hr
  injection hr with hr
  subst hr
  have hW : 0 < WRITE_BLOCK := by norm_num [WRITE_BLOCK]
  have hcn : 0 < c.toNat := by omega
  have hcast : ((c.toNat : Nat) : Int) = c := Int.toNat_of_nonneg (by omega)
  have hEq : splitUtilLoop md5h base WRITE_BLOCK c.toNat data 1 =
      splitPlainLoop md5h base c data 1 := by
    rw [splitUtilLoop_eq_plainLoop md5h base hW hcn data 1, hcast]
  constructor
  · show (splitUtilLoop md5h base WRITE_BLOCK c.toNat data 1).1 =
      (splitPlainLoop md5h base c data 1).1
    rw [hEq]
  · show Manifest.mk base (splitUtilLoop md5h base WRITE_BLOCK c.toNat data 1).2.length
      c ts (splitUtilLoop md5h base WRITE_BLOCK c.toNat data 1).2 =
      Manifest.mk base (splitPlainLoop md5h base c data 1).2.length
      c ts (splitPlainLoop md5h base c data 1).2
    rw [hEq]

theorem C8_variant_equivalence_witness :
    demoSplit.partFiles = (split_file_plain demoHash "t" "f" "p" [1, 2, 3] 2).partFiles ∧
    demoSplit.manifest = (split_file_plain demoHash "t" "f" "p" [1, 2, 3] 2).manifest :=
  C8_variant_equivalence demoHash "t" "f" "p" "p" none [1, 2, 3] 2 (by norm_num)
    demoSplit split_demo_eval

/-- C9: joining any manifest whose `parts` list is empty succeeds without
error, whatever `total_parts` claims: the output file, named by
`original_filename` in the chosen output directory, is created and left
zero-byte, and its path is returned.  Both joiner variants agree. -/
theorem C9_empty_parts_join (md5h : List Nat → String)
    (fs : String → Option (List Nat)) (manifestDir : String)
    (output_dir : Option String) (m : Manifest) (hm : m.parts = []) :
    join_from_manifest_utility md5h fs manifestDir output_dir m =
      { outPath := pathJoin (output_dir.getD manifestDir) m.original_filename,
        content := [], error := none } ∧
    join_from_manifest_plain md5h fs manifestDir m =
      { outPath := pathJoin manifestDir m.original_filename,
        content := [], error := none } := by
  constructor
  · show JoinOutcomeU.mk (pathJoin (output_dir.getD manifestDir) m.original_filename)
      (joinLoopU md5h fs manifestDir m.parts []).1
      (joinLoopU md5h fs manifestDir m.parts []).2 = _
    rw [hm]
    rfl
  · show JoinOutcomeP.mk (pathJoin manifestDir m.original_filename)
      (joinLoopP md5h fs manifestDir m.parts []).1
      (joinLoopP md5h fs manifestDir m.parts []).2 = _
    rw [hm]
    rfl

/-- An empty-parts manifest whose `total_parts` field lies. -/
def demoManifestEmpty : Manifest :=
  { original_filename := "f", total_parts := 5, chunk_size_bytes := 2,
    timestamp := "t", parts := [] }

theorem C9_empty_parts_join_witness :
    join_from_manifest_utility demoHash demoFsMix "d" none demoManifestEmpty =
      { outPath := pathJoin ((none : Option String).getD "d")
          demoManifestEmpty.original_filename,
        content := [], error := none } ∧
    join_from_manifest_plain demoHash demoFsMix "d" demoManifestEmpty =
      { outPath := pathJoin "d" demoManifestEmpty.original_filename,
        content := [], error := none } :=
  C9_empty_parts_join demoHash demoFsMix "d" none demoManifestEmpty rfl

/-- C10: the joiner's outcome depends only on the manifest's
`original_filename` and `parts` list and on the part files' bytes: two
manifests agreeing on those but differing in `total_parts`,
`chunk_size_bytes` or `timestamp` join to byte-identical outputs (the
whole outcome, path included, coincides).  Both joiner variants agree. -/
theorem C10_metadata_irrelevant (md5h : List Nat → String)
    (fs : String → Option (List Nat)) (manifestDir : String)
    (output_dir : Option String) (m1 m2 : Manifest)
    (hname : m1.original_filename = m2.original_filename)
    (hparts : m1.parts = m2.parts) :
    join_from_manifest_utility md5h fs manifestDir output_dir m1 =
      join_from_manifest_utility md5h fs manifestDir output_dir m2 ∧
    join_from_manifest_plain md5h fs manifestDir m1 =
      join_from_manifest_plain md5h fs manifestDir m2 := by
  constructor
  · show JoinOutcomeU.mk (pathJoin (output_dir.getD manifestDir) m1.original_filename)
      (joinLoopU md5h fs manifestDir m1.parts []).1
      (joinLoopU md5h fs manifestDir m1.parts []).2 = _
    rw [hname, hparts]
    rfl
  · show JoinOutcomeP.mk (pathJoin manifestDir m1.original_filename)
      (joinLoopP md5h fs manifestDir m1.parts []).1
      (joinLoopP md5h fs manifestDir m1.parts []).2 = _
    rw [hname, hparts]
    rfl

/-- `demoManifestRev` with its `total_parts`, `chunk_size_bytes` and
`timestamp` fields altered, `original_filename` and `parts` intact. -/
def demoManifestRevAltered : Manifest :=
  { original_filename := "f", total_parts := 99, chunk_size_bytes := 7,
    timestamp := "z",
    parts := [{ filename := "f.part002", size := 1, md5 := "h3" },
              { filename := "f.part001", size := 2, md5 := "h12" }] }

theorem C10_metadata_irrelevant_witness :
    join_from_manifest_utility demoHash demoFsMix "d" none demoManifestRev =
      join_from_manifest_utility demoHash demoFsMix "d" none demoManifestRevAltered ∧
    join_from_manifest_plain demoHash demoFsMix "d" demoManifestRev =
      join_from_manifest_plain demoHash demoFsMix "d" demoManifestRevAltered :=
  C10_metadata_irrelevant demoHash demoFsMix "d" none demoManifestRev
    demoManifestRevAltered rfl rfl
